import Mathlib

/-!
Verification development for the canny-go Canny edge-detection pipeline.

The Go source stores pixels as `GrayPixel{y, a uint8}` in a row-major
`[][]GrayPixel` slice.  We model `uint8` values as `ℕ` (all constructed
intensities are reduced `% 256` where the Go code performs a narrowing
conversion) and `float64` arithmetic as exact arithmetic over `ℚ`
(respectively `ℝ` for the one transcendental operation, `math.Atan`):
all float values appearing in the pipeline are rationals, the pixel and
kernel data are small integers or dyadic rationals that `float64`
represents exactly, and every comparison made by the code is against a
dyadic constant, so exact arithmetic reproduces the observable behavior.
`uint8(math.Sqrt(q))` is modelled as `Nat.sqrt ⌊q⌋ % 256`: for the exact
inputs arising here a correctly rounded square root truncates to the
integer square root (the distance from `√q` to the nearest integer above
far exceeds one ulp at the magnitudes involved), and the narrowing
conversion of a positive out-of-range float is the low byte of the
truncated value on the reference platform.

Go panics (dimension mismatches, an out-of-range gradient direction) are
modelled with `Option`; out-of-bounds slice reads, which panic in Go, are
totalized with `List.getD` defaults and every theorem about them restricts
to indices where the Go code does not fault.
-/

structure GrayPixel where
  y : ℕ
  a : ℕ
  deriving DecidableEq

/-- Grids are row-major lists of rows, indexed `pixels[y][x]` like the Go slices. -/
abbrev Grid := List (List GrayPixel)

/-- Default result of an out-of-bounds read; such reads panic in Go and are
unreachable in every theorem below, which restrict indices to the grid. -/
def defaultPixel : GrayPixel := ⟨0, 255⟩

/-- `pixels[y][x]`, totalized. Negative indices (which Go would reject) also
fall back to the default via `Int.toNat`. -/
def pixAt (g : Grid) (y x : ℤ) : GrayPixel :=
  (g.getD y.toNat []).getD x.toNat defaultPixel

/-- The inclusive integer range `[a, b]`, the index sequence of a Go loop
`for i := a; i <= b; i++`. -/
def intRange (a b : ℤ) : List ℤ :=
  (List.range (b - a + 1).toNat).map (fun k => a + k)

/-- The helper `abs` of the Go source. -/
def intAbs (x : ℤ) : ℤ := if x < 0 then -x else x

/-- Direction of a 1-D sampling window (`HORIZONTAL`/`VERTICAL` in the source). -/
inductive Direction where
  | HORIZONTAL
  | VERTICAL
  deriving DecidableEq

/-- A `gonum` dense matrix: row-major data with explicit dimensions. -/
structure DenseMat where
  rows : ℕ
  cols : ℕ
  data : List ℚ
  deriving DecidableEq

/-- `m.At(y, x)`, totalized (gonum itself panics out of range; all reads in
this development are in range by construction). -/
def DenseMat.At (m : DenseMat) (y x : ℕ) : ℚ :=
  m.data.getD (y * m.cols + x) 0

/-- `convolve`: sum of elementwise products of two equal-shaped matrices;
`none` models the panic on mismatched dimensions. -/
def convolve (m1 m2 : DenseMat) : Option ℚ :=
  if m1.rows = m2.rows ∧ m1.cols = m2.cols then
    some (((List.range m1.rows).map (fun y =>
      ((List.range m1.cols).map (fun x => m1.At y x * m2.At y x)).sum)).sum)
  else none

/-- The boundary-resolution rule of `getSorroundingPixelMatrix` and
`getPixelVector`: an index `i < 0` resolves to `pos + abs(i)` and an index
`i ≥ n` resolves to `pos - (i - n + 1)`, where `pos` is the window center. -/
def reflectIdx (pos i n : ℤ) : ℤ :=
  if i < 0 then pos + intAbs i
  else if n ≤ i then pos - (i - n + 1)
  else i

/-- Modelled from the spec of the Sampling Grid Accessor (for comparison with
`reflectIdx`): an out-of-bounds index `k` past an edge mirrors back into
bounds by the same magnitude `k` measured from that edge. -/
def mirrorIdx (i n : ℤ) : ℤ :=
  if i < 0 then -i
  else if n ≤ i then 2 * n - 2 - i
  else i

/-- `getSorroundingPixelMatrix`: the `length × length` window of intensities
centered at `(posY, posX)`, flattened row-major, boundary handled by
`reflectIdx`.  (Go panics when `length` is even; the pipeline only calls it
with `length = 3`.) -/
def getSorroundingPixelMatrix (pixels : Grid) (posY posX : ℤ) (length : ℕ) : DenseMat :=
  let padding : ℤ := (length : ℤ) / 2
  let height : ℤ := pixels.length
  let width : ℤ := (pixels.getD 0 []).length
  ⟨length, length,
    (intRange (posY - padding) (posY + padding)).flatMap (fun yy =>
      (intRange (posX - padding) (posX + padding)).map (fun xx =>
        ((pixAt pixels (reflectIdx posY yy height) (reflectIdx posX xx width)).y : ℚ)))⟩

/-- `getPixelVector`: a 1-D window of intensities of odd `length` centered at
`(posY, posX)`, along the given axis, boundary handled by `reflectIdx`.
(Go panics when `length` is even; the pipeline only calls it with the
5-tap blur kernel length.) -/
def getPixelVector (pixels : Grid) (posY posX : ℤ) (length : ℕ) (dir : Direction) : List ℚ :=
  let padding : ℤ := (length : ℤ) / 2
  match dir with
  | .HORIZONTAL =>
      let rowLength : ℤ := (pixels.getD posY.toNat []).length
      (intRange (posX - padding) (posX + padding)).map (fun i =>
        ((pixAt pixels posY (reflectIdx posX i rowLength)).y : ℚ))
  | .VERTICAL =>
      let columnLength : ℤ := pixels.length
      (intRange (posY - padding) (posY + padding)).map (fun i =>
        ((pixAt pixels (reflectIdx posY i columnLength) posX).y : ℚ))

/-- Modelled from the spec (for comparison with `getPixelVector`): the same
window extractor, but resolving out-of-bounds indices by edge mirroring. -/
def getPixelVectorSpec (pixels : Grid) (posY posX : ℤ) (length : ℕ) (dir : Direction) : List ℚ :=
  let padding : ℤ := (length : ℤ) / 2
  match dir with
  | .HORIZONTAL =>
      let rowLength : ℤ := (pixels.getD posY.toNat []).length
      (intRange (posX - padding) (posX + padding)).map (fun i =>
        ((pixAt pixels posY (mirrorIdx i rowLength)).y : ℚ))
  | .VERTICAL =>
      let columnLength : ℤ := pixels.length
      (intRange (posY - padding) (posY + padding)).map (fun i =>
        ((pixAt pixels (mirrorIdx i columnLength) posX).y : ℚ))

/-- `innerProduct`: dot product of two vectors; `none` models the panic on
mismatched lengths. -/
def innerProduct (v kern : List ℚ) : Option ℚ :=
  if v.length = kern.length then
    some (((v.zip kern).map (fun p => p.1 * p.2)).sum)
  else none

/-- Row `index` of Pascal's triangle (`getPascalTriangleRow`). -/
def getPascalTriangleRow (index : ℕ) : List ℚ :=
  (List.range (index + 1)).map (fun i => (Nat.choose index i : ℚ))

/-- `normalizeVec`: scale a vector by the reciprocal of its component sum. -/
def normalizeVec (v : List ℚ) : List ℚ :=
  let s := v.sum
  v.map (fun x => 1 / s * x)

/-- Newton iteration for the integer square root, with explicit fuel so that
it reduces by structural recursion (it follows the same iteration as
`Nat.sqrt`, whose well-founded recursion does not evaluate definitionally;
`sqrtIterFuel_eq_iter` below proves the agreement). -/
def sqrtIterFuel : ℕ → ℕ → ℕ → ℕ
  | 0, _, x => x
  | fuel + 1, n, x =>
    let next := (x + n / x) / 2
    if next < x then sqrtIterFuel fuel n next else x

/-- The integer square root (equal to `Nat.sqrt`, see `natSqrt_eq_sqrt`). -/
def natSqrt (n : ℕ) : ℕ := if n ≤ 1 then n else sqrtIterFuel n n (n / 2)

/-- `uint8(math.Sqrt(q))` for the exactly represented nonnegative values
arising in this pipeline: truncated square root, low byte on overflow. -/
def u8OfSqrt (q : ℚ) : ℕ := natSqrt (Int.floor q).toNat % 256

/-- `gaussianBlur` with the separable binomial kernel.  (Go panics when
`kernelSize` is even; the pipeline only calls `kernelSize = 5`.) -/
def gaussianBlur (pixels : Grid) (kernelSize : ℕ) : Grid :=
  let kernel := normalizeVec (getPascalTriangleRow (kernelSize - 1))
  (List.range pixels.length).map (fun (y : ℕ) =>
    (List.range ((pixels.getD y []).length)).map (fun (x : ℕ) =>
      let vecVert := getPixelVector pixels y x kernel.length .VERTICAL
      let vecHor := getPixelVector pixels y x kernel.length .HORIZONTAL
      let verticalSum := (innerProduct vecVert kernel).getD 0
      let horizontalSum := (innerProduct vecHor kernel).getD 0
      ⟨u8OfSqrt (verticalSum * verticalSum + horizontalSum * horizontalSum), 255⟩))

def SOBEL_X : List ℚ := [1, 0, -1, 2, 0, -2, 1, 0, -1]

def SOBEL_Y : List ℚ := [1, 2, 1, 0, 0, 0, -1, -2, -1]

def sobel_X : DenseMat := ⟨3, 3, SOBEL_X⟩

def sobel_Y : DenseMat := ⟨3, 3, SOBEL_Y⟩

/-- The horizontal Sobel response `sobelRes_X` at `(y, x)`. -/
def sobelResX (pixels : Grid) (y x : ℤ) : ℚ :=
  (convolve (getSorroundingPixelMatrix pixels y x 3) sobel_X).getD 0

/-- The vertical Sobel response `sobelRes_Y` at `(y, x)`. -/
def sobelResY (pixels : Grid) (y x : ℤ) : ℚ :=
  (convolve (getSorroundingPixelMatrix pixels y x 3) sobel_Y).getD 0

/-- The magnitude half of `sobel`: `uint8(sqrt(gx² + gy²))`, alpha 255. -/
def sobelMag (pixels : Grid) : Grid :=
  (List.range pixels.length).map (fun (y : ℕ) =>
    (List.range ((pixels.getD y []).length)).map (fun (x : ℕ) =>
      ⟨u8OfSqrt (sobelResX pixels y x ^ 2 + sobelResY pixels y x ^ 2), 255⟩))

/-- The direction computation of `sobel`: `0` if either response is zero,
otherwise `atan(gy/gx)`, then converted to degrees. -/
noncomputable def sobelAngle (sx sy : ℚ) : ℝ :=
  (if sx = 0 ∨ sy = 0 then 0 else Real.arctan ((sy : ℝ) / (sx : ℝ))) * (180 / Real.pi)

/-- The direction half of `sobel`, co-indexed with `sobelMag`. -/
noncomputable def sobelDir (pixels : Grid) : List (List ℝ) :=
  (List.range pixels.length).map (fun (y : ℕ) =>
    (List.range ((pixels.getD y []).length)).map (fun (x : ℕ) =>
      sobelAngle (sobelResX pixels y x) (sobelResY pixels y x)))

/-- `sobel`: the magnitude grid together with the direction field. -/
noncomputable def sobel (pixels : Grid) : Grid × List (List ℝ) :=
  (sobelMag pixels, sobelDir pixels)

/-- The five angle buckets of `getPixelInGradientDirection`, returning the two
neighbor offsets `((Δy₁, Δx₁), (Δy₂, Δx₂))`; `none` is the panic on a
direction outside `[-90, 90]`.  Generic over the ordered field carrying the
direction values (`ℝ` in the pipeline; every float64 is such a value, and the
cut points are dyadic rationals that float64 compares exactly). -/
def directionBucket {α : Type} [LinearOrderedField α] (d : α) : Option ((ℤ × ℤ) × (ℤ × ℤ)) :=
  if -90 ≤ d ∧ d < -(135 / 2) then some ((-1, 0), (1, 0))
  else if -(135 / 2) ≤ d ∧ d < -(45 / 2) then some ((-1, 1), (1, -1))
  else if -(45 / 2) ≤ d ∧ d < 45 / 2 then some ((0, 1), (0, -1))
  else if 45 / 2 ≤ d ∧ d < 135 / 2 then some ((1, 1), (-1, -1))
  else if 135 / 2 ≤ d ∧ d ≤ 90 then some ((1, 0), (-1, 0))
  else none

/-- The per-axis clamp applied to a neighbor coordinate: out of range falls
back to the center coordinate. -/
def clampIdx (i n center : ℤ) : ℤ := if i < 0 ∨ n ≤ i then center else i

/-- `getPixelInGradientDirection`: the two neighbors along the gradient
direction, each coordinate clamped per axis to the center on overflow. -/
def getPixelInGradientDirection {α : Type} [LinearOrderedField α]
    (pixels : Grid) (directions : List (List α)) (x y : ℤ) : Option (GrayPixel × GrayPixel) :=
  let height : ℤ := pixels.length
  let width : ℤ := (pixels.getD 0 []).length
  match directionBucket ((directions.getD y.toNat []).getD x.toNat 0) with
  | none => none
  | some off =>
      some (pixAt pixels (clampIdx (y + off.1.1) height y) (clampIdx (x + off.1.2) width x),
            pixAt pixels (clampIdx (y + off.2.1) height y) (clampIdx (x + off.2.2) width x))

/-- `nonMaximumSuppression`.  `none` covers the two panics: mismatched
dimensions, and any scanned direction value outside the five buckets.  On
success each pixel is kept, or replaced by `{0, 255}` when a gradient-direction
neighbor strictly exceeds it. -/
def nonMaximumSuppression {α : Type} [LinearOrderedField α]
    (pixels : Grid) (directions : List (List α)) : Option Grid :=
  if pixels.length = directions.length ∧ (pixels.getD 0 []).length = (directions.getD 0 []).length then
    if (List.range pixels.length).all (fun y =>
        (List.range (pixels.getD 0 []).length).all (fun x =>
          (directionBucket ((directions.getD y []).getD x 0)).isSome)) then
      some ((List.range pixels.length).map (fun (y : ℕ) =>
        (List.range (pixels.getD 0 []).length).map (fun (x : ℕ) =>
          match getPixelInGradientDirection pixels directions (x : ℤ) (y : ℤ) with
          | some pq =>
              if (pixAt pixels y x).y < pq.1.y ∨ (pixAt pixels y x).y < pq.2.y then ⟨0, 255⟩
              else pixAt pixels y x
          | none => defaultPixel)))
    else none
  else none

/-- `maxPixelValue`: running maximum of the scanned intensities, starting at 0. -/
def maxPixelValue (pixels : Grid) : ℕ :=
  ((List.range pixels.length).flatMap (fun (y : ℕ) =>
    (List.range ((pixels.getD 0 []).length)).map (fun (x : ℕ) => (pixAt pixels y x).y))).foldl max 0

/-- `doublethreshold`: the Strong coordinate set, the Weak coordinate set
(coordinates are `(x, y)` pairs like `image.Point`), and the grid with every
non-Strong non-Weak pixel's intensity zeroed in place.  The Go sets are
iterated in unspecified order; the model lists coordinates in raster order,
each at most once. -/
def doublethreshold (pixels : Grid) (high low : ℚ) :
    List (ℤ × ℤ) × List (ℤ × ℤ) × Grid :=
  let h := pixels.length
  let w := (pixels.getD 0 []).length
  let coords := (List.range h).flatMap (fun (y : ℕ) => (List.range w).map (fun (x : ℕ) => ((x : ℤ), (y : ℤ))))
  (coords.filter (fun c => decide (high < ((pixAt pixels c.2 c.1).y : ℚ))),
   coords.filter (fun c => decide (((pixAt pixels c.2 c.1).y : ℚ) < high ∧
     low < ((pixAt pixels c.2 c.1).y : ℚ))),
   (List.range h).map (fun (y : ℕ) => (List.range w).map (fun (x : ℕ) =>
     let p := pixAt pixels y x
     if high < (p.y : ℚ) then p
     else if (p.y : ℚ) < high ∧ low < (p.y : ℚ) then p
     else ⟨0, p.a⟩)))

/-- `getAdjacentPixels`: the neighbor coordinates the Go code actually collects
around `(x, y)` (note the conjunction in the filter and the exclusive upper
bounds, faithful to the source). -/
def getAdjacentPixels (pixels : Grid) (x y : ℤ) : List (ℤ × ℤ) :=
  let height : ℤ := pixels.length
  let width : ℤ := (pixels.getD 0 []).length
  let minX := max 0 (x - 1)
  let minY := max 0 (y - 1)
  let maxX := min width (x + 1)
  let maxY := min height (y + 1)
  (intRange minY (maxY - 1)).flatMap (fun i =>
    ((intRange minX (maxX - 1)).filter (fun j => decide (i ≠ y ∧ j ≠ x))).map (fun j => (j, i)))

/-- `pixels[y][x].y = v`, keeping the alpha channel. -/
def setIntensity (g : Grid) (x y : ℤ) (v : ℕ) : Grid :=
  let row := g.getD y.toNat []
  let p := row.getD x.toNat defaultPixel
  g.set y.toNat (row.set x.toNat ⟨v, p.a⟩)

/-- `edgeTracking`: fold over the Weak coordinates (the Go set iteration order
is unspecified; the model uses the raster order in which `doublethreshold`
built the list).  A weak coordinate is promoted into the evolving Strong set
when its `getAdjacentPixels` neighborhood meets it; its pixel intensity is
zeroed regardless. -/
def edgeTracking (pixels : Grid) (strong weak : List (ℤ × ℤ)) : Grid × List (ℤ × ℤ) :=
  weak.foldl (fun st wp =>
    let neighbours := getAdjacentPixels st.1 wp.1 wp.2
    let strong2 := if st.2.inter neighbours ≠ [] then st.2 ++ [wp] else st.2
    (setIntensity st.1 wp.1 wp.2 0, strong2))
    (pixels, strong)

/-- `CannyEdgeDetect`: optional blur, Sobel, non-maximum suppression,
double threshold with ratios of the maximum magnitude, edge tracking. -/
noncomputable def CannyEdgeDetect (pixels : Grid) (blur : Bool) (minRatio maxRatio : ℚ) :
    Option Grid :=
  let pixels1 := if blur then gaussianBlur pixels 5 else pixels
  match nonMaximumSuppression (sobel pixels1).1 (sobel pixels1).2 with
  | none => none
  | some pixels2 =>
    let high := maxRatio * (maxPixelValue pixels2 : ℚ)
    let low := minRatio * (maxPixelValue pixels2 : ℚ)
    let t := doublethreshold pixels2 high low
    some (edgeTracking t.2.2 t.1 t.2.1).1

/-! Concrete inputs used by counterexamples and witnesses. -/

/-- The 3×3 grid with a single bright pixel (255) at the center (spec scenario). -/
def centerBright3 : Grid :=
  [[⟨0, 255⟩, ⟨0, 255⟩, ⟨0, 255⟩],
   [⟨0, 255⟩, ⟨255, 255⟩, ⟨0, 255⟩],
   [⟨0, 255⟩, ⟨0, 255⟩, ⟨0, 255⟩]]

/-- The all-zero 3×3 grid with full alpha. -/
def zero3 : Grid :=
  [[⟨0, 255⟩, ⟨0, 255⟩, ⟨0, 255⟩],
   [⟨0, 255⟩, ⟨0, 255⟩, ⟨0, 255⟩],
   [⟨0, 255⟩, ⟨0, 255⟩, ⟨0, 255⟩]]

/-- A 3×3 grid with a vertical step edge: last column intensity 25. -/
def col25 : Grid :=
  [[⟨0, 255⟩, ⟨0, 255⟩, ⟨25, 255⟩],
   [⟨0, 255⟩, ⟨0, 255⟩, ⟨25, 255⟩],
   [⟨0, 255⟩, ⟨0, 255⟩, ⟨25, 255⟩]]

/-- Post-suppression magnitude grid of `col25`, which is also the final
`CannyEdgeDetect` output for ratios `(1/4, 1/2)`. -/
def col25nms : Grid :=
  [[⟨0, 255⟩, ⟨100, 255⟩, ⟨0, 255⟩],
   [⟨0, 255⟩, ⟨100, 255⟩, ⟨0, 255⟩],
   [⟨0, 255⟩, ⟨100, 255⟩, ⟨0, 255⟩]]

/-- A single-row grid of four distinct intensities. -/
def row4 : Grid := [[⟨10, 255⟩, ⟨20, 255⟩, ⟨30, 255⟩, ⟨40, 255⟩]]

/-- A 2×2 zero-intensity grid whose alpha channel is 7 everywhere. -/
def alpha2 : Grid := [[⟨0, 7⟩, ⟨0, 7⟩], [⟨0, 7⟩, ⟨0, 7⟩]]

/-- The `CannyEdgeDetect` output for `alpha2`. -/
def alpha2out : Grid := [[⟨0, 255⟩, ⟨0, 255⟩], [⟨0, 255⟩, ⟨0, 255⟩]]

/-- A 2×2 grid of uniform intensity 7 (alpha 9). -/
def uni2 : Grid := [[⟨7, 9⟩, ⟨7, 9⟩], [⟨7, 9⟩, ⟨7, 9⟩]]

/-- A 2×2 magnitude grid used as a non-maximum-suppression input. -/
def nmsW : Grid := [[⟨5, 255⟩, ⟨9, 255⟩], [⟨1, 255⟩, ⟨0, 255⟩]]

/-- An all-zero direction field for `nmsW`. -/
def nmsWdirs : List (List ℚ) := [[0, 0], [0, 0]]

/-- The non-maximum-suppression output for `nmsW` under `nmsWdirs`. -/
def nmsWout : Grid := [[⟨0, 255⟩, ⟨9, 255⟩], [⟨1, 255⟩, ⟨0, 255⟩]]

/-! Theorems.  The rational arithmetic of the model is evaluated on concrete
inputs by `decide`; the four core `Rat` operations are `irreducible` by
default, which only hides them from elaboration-time evaluation, so they are
restored to the default reducibility here. -/

attribute [local semireducible] Rat.add Rat.sub Rat.mul Rat.inv

/-- C2: in `edgeTracking`, the neighborhood a weak coordinate is checked
against is NOT its full 8-connected neighborhood: at the interior coordinate
(1,1) of a 3×3 grid, `getAdjacentPixels` returns only the north-west diagonal
neighbor (0,0) — the conjunction `(i != y) && (j != x)` drops every neighbor
sharing a row or column with the center, and the exclusive loop bounds drop
the x+1 and y+1 neighbors — so a weak pixel at (1,1) is not promoted even
though the strong pixel (2,1) is 8-adjacent to it. -/
theorem edgeTracking_adjacent_pixels_bug :
    getAdjacentPixels centerBright3 1 1 = [(0, 0)] ∧
    ((2 : ℤ), (1 : ℤ)) ∉ getAdjacentPixels centerBright3 1 1 ∧
    (edgeTracking centerBright3 [(2, 1)] [(1, 1)]).2 = [(2, 1)] := by
  decide

/-- C3 counterexample: for a window of length 5 centered at x = 1 on a
width-4 row, the out-of-bounds index -1 (one past the left edge) resolves to
index 2 (value 30), not to the edge mirror index 1 (value 20): the accessor
reflects about the window center, not about the grid edge. -/
theorem getPixelVector_not_edge_mirror_cex :
    getPixelVector row4 0 1 5 .HORIZONTAL = [30, 10, 20, 30, 40] ∧
    getPixelVectorSpec row4 0 1 5 .HORIZONTAL = [20, 10, 20, 30, 40] ∧
    getPixelVector row4 0 1 5 .HORIZONTAL ≠ getPixelVectorSpec row4 0 1 5 .HORIZONTAL := by
  decide

/-- C3 amended: for the 3×3 window (the only square window the pipeline uses),
an out-of-bounds window index resolves exactly by the spec's edge-mirror rule,
because a window of half-length 1 can only leave the grid when its center lies
on the corresponding edge; for wider windows the code reflects about the
center instead (see the counterexample). -/
theorem reflectIdx_edge_mirror_window3 (pos i n : ℤ) (h0 : 0 ≤ pos) (hn : pos < n)
    (hlo : pos - 1 ≤ i) (hhi : i ≤ pos + 1) : reflectIdx pos i n = mirrorIdx i n := by
  unfold reflectIdx mirrorIdx intAbs
  split_ifs <;> omega

/-- Witness for the amended C3 theorem at `pos = 0`, `i = -1`, `n = 3`. -/
theorem reflectIdx_edge_mirror_window3_witness : reflectIdx 0 (-1) 3 = mirrorIdx (-1) 3 :=
  reflectIdx_edge_mirror_window3 0 (-1) 3 (by decide) (by decide) (by decide) (by decide)

/-- C9: convolution of equal-shaped matrices is commutative. -/
theorem convolve_comm (m1 m2 : DenseMat) (hr : m1.rows = m2.rows) (hc : m1.cols = m2.cols) :
    convolve m1 m2 = convolve m2 m1 := by
  unfold convolve
  rw [if_pos ⟨hr, hc⟩, if_pos ⟨hr.symm, hc.symm⟩, hr, hc]
  simp [mul_comm]

/-- Witness for C9 on concrete 1×2 matrices. -/
theorem convolve_comm_witness :
    convolve ⟨1, 2, [1, 2]⟩ ⟨1, 2, [3, 4]⟩ = convolve ⟨1, 2, [3, 4]⟩ ⟨1, 2, [1, 2]⟩ :=
  convolve_comm _ _ rfl rfl

/-- Reading an index below `n` out of a range-map list. -/
lemma getD_map_range {β : Type} (f : ℕ → β) (n y : ℕ) (d : β) (hy : y < n) :
    ((List.range n).map f).getD y d = f y := by
  rw [List.getD_eq_getElem _ _ (by simpa using hy)]
  simp

lemma pixAt_map_range (f : ℕ → ℕ → GrayPixel) (h w y x : ℕ) (hy : y < h) (hx : x < w) :
    pixAt ((List.range h).map (fun yy => (List.range w).map (fun xx => f yy xx))) y x = f y x := by
  unfold pixAt
  rw [Int.toNat_natCast, Int.toNat_natCast, getD_map_range _ _ _ _ hy, getD_map_range _ _ _ _ hx]

lemma mem_coords_iff (h w y x : ℕ) :
    (((x : ℤ), (y : ℤ)) ∈ (List.range h).flatMap (fun (yy : ℕ) => (List.range w).map (fun (xx : ℕ) => ((xx : ℤ), (yy : ℤ))))) ↔ (y < h ∧ x < w) := by
  rw [List.mem_flatMap]
  constructor
  · rintro ⟨a, ha, hmem⟩
    rw [List.mem_map] at hmem
    obtain ⟨b, hb, heq⟩ := hmem
    rw [List.mem_range] at ha hb
    obtain ⟨h1, h2⟩ := Prod.mk.inj heq
    have hbx : b = x := by exact_mod_cast h1
    have hay : a = y := by exact_mod_cast h2
    omega
  · rintro ⟨hy, hx⟩
    exact ⟨y, List.mem_range.mpr hy, List.mem_map.mpr ⟨x, List.mem_range.mpr hx, rfl⟩⟩

/-- C5 amended: Double Threshold is a partition with strict inequalities —
Strong iff magnitude > high, Weak iff high > magnitude > low, the two sets are
disjoint, a pixel equal to high is always suppressed (zeroed in place, alpha
kept), a pixel equal to low is suppressed provided low ≤ high (when low > high
such a pixel is Strong, see the counterexample), suppressed pixels are zeroed
in place, and Strong/Weak pixels are left unchanged. -/
theorem doublethreshold_partition (pixels : Grid) (high low : ℚ) (y x : ℕ)
    (hy : y < pixels.length) (hx : x < (pixels.getD 0 []).length) :
    ((((x : ℤ), (y : ℤ)) ∈ (doublethreshold pixels high low).1) ↔
      high < ((pixAt pixels y x).y : ℚ)) ∧
    ((((x : ℤ), (y : ℤ)) ∈ (doublethreshold pixels high low).2.1) ↔
      (((pixAt pixels y x).y : ℚ) < high ∧ low < ((pixAt pixels y x).y : ℚ))) ∧
    ¬((((x : ℤ), (y : ℤ)) ∈ (doublethreshold pixels high low).1) ∧
      (((x : ℤ), (y : ℤ)) ∈ (doublethreshold pixels high low).2.1)) ∧
    (((pixAt pixels y x).y : ℚ) = high →
      (((x : ℤ), (y : ℤ)) ∉ (doublethreshold pixels high low).1) ∧
      (((x : ℤ), (y : ℤ)) ∉ (doublethreshold pixels high low).2.1) ∧
      (pixAt (doublethreshold pixels high low).2.2 y x).y = 0) ∧
    (low ≤ high → ((pixAt pixels y x).y : ℚ) = low →
      (((x : ℤ), (y : ℤ)) ∉ (doublethreshold pixels high low).1) ∧
      (((x : ℤ), (y : ℤ)) ∉ (doublethreshold pixels high low).2.1) ∧
      (pixAt (doublethreshold pixels high low).2.2 y x).y = 0) ∧
    ((((x : ℤ), (y : ℤ)) ∉ (doublethreshold pixels high low).1) ∧
      (((x : ℤ), (y : ℤ)) ∉ (doublethreshold pixels high low).2.1) →
      (pixAt (doublethreshold pixels high low).2.2 y x).y = 0 ∧
      (pixAt (doublethreshold pixels high low).2.2 y x).a = (pixAt pixels y x).a) ∧
    ((((x : ℤ), (y : ℤ)) ∈ (doublethreshold pixels high low).1) ∨
      (((x : ℤ), (y : ℤ)) ∈ (doublethreshold pixels high low).2.1) →
      pixAt (doublethreshold pixels high low).2.2 y x = pixAt pixels y x) := by
  have hS : (((x : ℤ), (y : ℤ)) ∈ (doublethreshold pixels high low).1) ↔
      high < ((pixAt pixels y x).y : ℚ) := by
    simp only [doublethreshold, List.mem_filter, mem_coords_iff, decide_eq_true_eq]
    exact ⟨fun hh => hh.2, fun hh => ⟨⟨hy, hx⟩, hh⟩⟩
  have hW : (((x : ℤ), (y : ℤ)) ∈ (doublethreshold pixels high low).2.1) ↔
      (((pixAt pixels y x).y : ℚ) < high ∧ low < ((pixAt pixels y x).y : ℚ)) := by
    simp only [doublethreshold, List.mem_filter, mem_coords_iff, decide_eq_true_eq]
    exact ⟨fun hh => hh.2, fun hh => ⟨⟨hy, hx⟩, hh⟩⟩
  have hG : pixAt (doublethreshold pixels high low).2.2 y x =
      (if high < ((pixAt pixels y x).y : ℚ) then pixAt pixels y x
       else if ((pixAt pixels y x).y : ℚ) < high ∧ low < ((pixAt pixels y x).y : ℚ) then
         pixAt pixels y x
       else ⟨0, (pixAt pixels y x).a⟩) := by
    simp only [doublethreshold]
    exact pixAt_map_range _ _ _ _ _ hy hx
  refine ⟨hS, hW, ?_, ?_, ?_, ?_, ?_⟩
  · rintro ⟨ha, hb⟩
    rw [hS] at ha
    rw [hW] at hb
    linarith [hb.1]
  · intro heq
    refine ⟨?_, ?_, ?_⟩
    · rw [hS, heq]
      exact lt_irrefl high
    · rw [hW, heq]
      rintro ⟨h1, h2⟩
      exact absurd h1 (lt_irrefl high)
    · rw [hG, if_neg (by rw [heq]; exact lt_irrefl high), if_neg (by rw [heq]; rintro ⟨h1, h2⟩; exact absurd h1 (lt_irrefl high))]
  · intro hlh heq
    refine ⟨?_, ?_, ?_⟩
    · rw [hS, heq]
      intro hcon
      linarith
    · rw [hW, heq]
      rintro ⟨h1, h2⟩
      exact absurd h2 (lt_irrefl low)
    · rw [hG, if_neg (by rw [heq]; intro hcon; linarith),
        if_neg (by rw [heq]; rintro ⟨h1, h2⟩; exact absurd h2 (lt_irrefl low))]
  · rintro ⟨ha, hb⟩
    rw [hS] at ha
    rw [hW] at hb
    rw [hG, if_neg ha, if_neg hb]
    exact ⟨rfl, rfl⟩
  · rintro (ha | hb)
    · rw [hS] at ha
      rw [hG, if_pos ha]
    · rw [hW] at hb
      rw [hG, if_neg (by intro hcon; linarith [hb.1]), if_pos hb]

/-- C5 counterexample: with thresholds high = 1 and low = 2 (reachable, since
the pipeline never orders `minRatio` and `maxRatio`), the single pixel has
intensity exactly equal to `low`, yet it is classified Strong, not
suppressed. -/
theorem doublethreshold_low_boundary_cex :
    ((0 : ℤ), (0 : ℤ)) ∈ (doublethreshold [[⟨2, 255⟩]] 1 2).1 ∧
    ((pixAt [[⟨2, 255⟩]] 0 0).y : ℚ) = 2 := by
  decide

/-- Witness for the amended C5 theorem on a 1×1 grid with high = 4, low = 1. -/
theorem doublethreshold_partition_witness :
    ((((0 : ℤ), (0 : ℤ)) ∈ (doublethreshold [[⟨5, 255⟩]] 4 1).1 ↔
      (4 : ℚ) < ((pixAt [[⟨5, 255⟩]] 0 0).y : ℚ)) ∧
    ((((0 : ℤ), (0 : ℤ)) ∈ (doublethreshold [[⟨5, 255⟩]] 4 1).2.1) ↔
      (((pixAt [[⟨5, 255⟩]] 0 0).y : ℚ) < 4 ∧ (1 : ℚ) < ((pixAt [[⟨5, 255⟩]] 0 0).y : ℚ))) ∧
    ¬((((0 : ℤ), (0 : ℤ)) ∈ (doublethreshold [[⟨5, 255⟩]] 4 1).1) ∧
      (((0 : ℤ), (0 : ℤ)) ∈ (doublethreshold [[⟨5, 255⟩]] 4 1).2.1)) ∧
    (((pixAt [[⟨5, 255⟩]] 0 0).y : ℚ) = 4 →
      ((((0 : ℤ), (0 : ℤ)) ∉ (doublethreshold [[⟨5, 255⟩]] 4 1).1) ∧
      (((0 : ℤ), (0 : ℤ)) ∉ (doublethreshold [[⟨5, 255⟩]] 4 1).2.1) ∧
      (pixAt (doublethreshold [[⟨5, 255⟩]] 4 1).2.2 0 0).y = 0)) ∧
    ((1 : ℚ) ≤ 4 → ((pixAt [[⟨5, 255⟩]] 0 0).y : ℚ) = 1 →
      ((((0 : ℤ), (0 : ℤ)) ∉ (doublethreshold [[⟨5, 255⟩]] 4 1).1) ∧
      (((0 : ℤ), (0 : ℤ)) ∉ (doublethreshold [[⟨5, 255⟩]] 4 1).2.1) ∧
      (pixAt (doublethreshold [[⟨5, 255⟩]] 4 1).2.2 0 0).y = 0)) ∧
    (((((0 : ℤ), (0 : ℤ)) ∉ (doublethreshold [[⟨5, 255⟩]] 4 1).1) ∧
      (((0 : ℤ), (0 : ℤ)) ∉ (doublethreshold [[⟨5, 255⟩]] 4 1).2.1)) →
      (pixAt (doublethreshold [[⟨5, 255⟩]] 4 1).2.2 0 0).y = 0 ∧
      (pixAt (doublethreshold [[⟨5, 255⟩]] 4 1).2.2 0 0).a = (pixAt [[⟨5, 255⟩]] 0 0).a) ∧
    (((((0 : ℤ), (0 : ℤ)) ∈ (doublethreshold [[⟨5, 255⟩]] 4 1).1) ∨
      (((0 : ℤ), (0 : ℤ)) ∈ (doublethreshold [[⟨5, 255⟩]] 4 1).2.1)) →
      pixAt (doublethreshold [[⟨5, 255⟩]] 4 1).2.2 0 0 = pixAt [[⟨5, 255⟩]] 0 0)) :=
  doublethreshold_partition [[⟨5, 255⟩]] 4 1 0 0 (by decide) (by decide)

/-- C6: on success, non-maximum suppression never increases a pixel's
magnitude — every output pixel is either 0 (a gradient-direction neighbor
strictly exceeded it, or for the out-of-range-direction branch the default)
or exactly the corresponding input magnitude. -/
theorem nms_never_increases {α : Type} [LinearOrderedField α] (pixels : Grid)
    (directions : List (List α)) (res : Grid)
    (h : nonMaximumSuppression pixels directions = some res)
    (y x : ℕ) (hy : y < res.length) (hx : x < (res.getD y []).length) :
    (pixAt res y x).y = 0 ∨ (pixAt res y x).y = (pixAt pixels y x).y := by
  unfold nonMaximumSuppression at h
  by_cases h1 : pixels.length = directions.length ∧
      (pixels.getD 0 []).length = (directions.getD 0 []).length
  swap
  · rw [if_neg h1] at h
    exact absurd h (by simp)
  rw [if_pos h1] at h
  by_cases h2 : ((List.range pixels.length).all fun yy =>
      (List.range (pixels.getD 0 []).length).all fun xx =>
        (directionBucket ((directions.getD yy []).getD xx 0)).isSome) = true
  swap
  · rw [if_neg h2] at h
    exact absurd h (by simp)
  rw [if_pos h2] at h
  have hres := (Option.some.injEq _ _).mp h
  subst hres
  simp only [List.length_map, List.length_range] at hy
  rw [getD_map_range _ _ _ _ hy, List.length_map, List.length_range] at hx
  rw [pixAt_map_range _ _ _ _ _ hy hx]
  split
  · split_ifs
    · exact Or.inl rfl
    · exact Or.inr rfl
  · exact Or.inl rfl

/-- Witness for C6 on a concrete 2×2 magnitude grid with an all-zero
direction field over ℚ. -/
theorem nms_never_increases_witness :
    (pixAt nmsWout 0 0).y = 0 ∨ (pixAt nmsWout 0 0).y = (pixAt nmsW 0 0).y :=
  nms_never_increases nmsW nmsWdirs nmsWout (by decide) 0 0 (by decide) (by decide)

/-- A direction of 0 falls in the third bucket, horizontal neighbors. -/
lemma directionBucket_zero {α : Type} [LinearOrderedField α] :
    directionBucket (0 : α) = some ((0, 1), (0, -1)) := by
  unfold directionBucket
  norm_num

lemma sobelAngle_mem (sx sy : ℚ) : -90 ≤ sobelAngle sx sy ∧ sobelAngle sx sy ≤ 90 := by
  unfold sobelAngle
  split_ifs with h
  · norm_num
  · have hpi : (0 : ℝ) < Real.pi := Real.pi_pos
    have hc : (0 : ℝ) < 180 / Real.pi := by positivity
    have h1 : -(Real.pi / 2) < Real.arctan ((sy : ℝ) / (sx : ℝ)) :=
      Real.neg_pi_div_two_lt_arctan _
    have h2 : Real.arctan ((sy : ℝ) / (sx : ℝ)) < Real.pi / 2 :=
      Real.arctan_lt_pi_div_two _
    have key : Real.pi / 2 * (180 / Real.pi) = 90 := by
      field_simp
      ring
    constructor
    · have := mul_lt_mul_of_pos_right h1 hc
      have hneg : -(Real.pi / 2) * (180 / Real.pi) = -90 := by
        field_simp
        ring
      nlinarith [mul_lt_mul_of_pos_right h1 hc]
    · nlinarith [mul_lt_mul_of_pos_right h2 hc]

lemma directionBucket_isSome_of_range {α : Type} [LinearOrderedField α] (d : α)
    (h1 : -90 ≤ d) (h2 : d ≤ 90) : (directionBucket d).isSome = true := by
  unfold directionBucket
  split_ifs with a b c e f
  · rfl
  · rfl
  · rfl
  · rfl
  · rfl
  · exfalso
    have hA : ¬(d < -(135 / 2)) := fun hh => a ⟨h1, hh⟩
    have hB : ¬(d < -(45 / 2)) := fun hh => b ⟨by linarith, hh⟩
    have hC : ¬(d < 45 / 2) := fun hh => c ⟨by linarith, hh⟩
    have hD : ¬(d < 135 / 2) := fun hh => e ⟨by linarith, hh⟩
    exact f ⟨by linarith, h2⟩

lemma sobelDir_entry_isSome (pixels : Grid) (y x : ℕ) :
    (directionBucket (((sobelDir pixels).getD y []).getD x 0)).isSome = true := by
  have hget : ((sobelDir pixels).getD y []).getD x 0 = 0 ∨
      ∃ sx sy, ((sobelDir pixels).getD y []).getD x 0 = sobelAngle sx sy := by
    by_cases hy : y < pixels.length
    · simp only [sobelDir]
      rw [getD_map_range _ _ _ _ hy]
      by_cases hx : x < (pixels.getD y []).length
      · rw [getD_map_range _ _ _ _ hx]
        exact Or.inr ⟨_, _, rfl⟩
      · refine Or.inl ?_
        rw [List.getD_eq_default]
        simpa using hx
    · refine Or.inl ?_
      have hrow : (sobelDir pixels).getD y [] = [] := by
        apply List.getD_eq_default
        simpa [sobelDir] using hy
      rw [hrow]
      rfl
  rcases hget with hg | ⟨sx, sy, hg⟩
  · rw [hg, directionBucket_zero]
    rfl
  · rw [hg]
    exact directionBucket_isSome_of_range _ (sobelAngle_mem _ _).1 (sobelAngle_mem _ _).2

/-- C7: every direction angle produced by the Gradient Stage lies in
[-90, 90] (the zero-response fallback gives 0, and `atan` lands strictly
inside `(-pi/2, pi/2)`), and consequently non-maximum suppression applied to
the Sobel output never reaches its out-of-range panic: it never returns
`none` on a Sobel magnitude/direction pair. -/
theorem sobel_directions_in_range_nms_total :
    (∀ sx sy : ℚ, -90 ≤ sobelAngle sx sy ∧ sobelAngle sx sy ≤ 90) ∧
    ∀ pixels : Grid, nonMaximumSuppression (sobel pixels).1 (sobel pixels).2 ≠ none := by
  refine ⟨sobelAngle_mem, fun pixels => ?_⟩
  show nonMaximumSuppression (sobelMag pixels) (sobelDir pixels) ≠ none
  have hdim : (sobelMag pixels).length = (sobelDir pixels).length ∧
      ((sobelMag pixels).getD 0 []).length = ((sobelDir pixels).getD 0 []).length := by
    constructor
    · simp [sobelMag, sobelDir]
    · by_cases h0 : 0 < pixels.length
      · simp only [sobelMag, sobelDir]
        rw [getD_map_range _ _ _ _ h0, getD_map_range _ _ _ _ h0]
        simp
      · have hz : pixels.length = 0 := by omega
        simp only [sobelMag, sobelDir, hz]
        rfl
  have hall : ((List.range (sobelMag pixels).length).all fun yy =>
      (List.range ((sobelMag pixels).getD 0 []).length).all fun xx =>
        (directionBucket (((sobelDir pixels).getD yy []).getD xx 0)).isSome) = true := by
    refine List.all_eq_true.mpr fun yy _ => List.all_eq_true.mpr fun xx _ => ?_
    exact sobelDir_entry_isSome pixels yy xx
  unfold nonMaximumSuppression
  rw [if_pos hdim, if_pos hall]
  simp

lemma pixAt_map_range_dep (f : ℕ → ℕ → GrayPixel) (wf : ℕ → ℕ) (h y x : ℕ)
    (hy : y < h) (hx : x < wf y) :
    pixAt ((List.range h).map (fun yy => (List.range (wf yy)).map (fun xx => f yy xx))) y x
      = f y x := by
  unfold pixAt
  rw [Int.toNat_natCast, Int.toNat_natCast, getD_map_range _ _ _ _ hy,
    getD_map_range _ _ _ _ hx]

lemma reflectIdx_bounds (pos i n : ℤ) (h0 : 0 ≤ pos) (hn : pos < n) (h2 : 2 ≤ n)
    (hlo : pos - 1 ≤ i) (hhi : i ≤ pos + 1) :
    0 ≤ reflectIdx pos i n ∧ reflectIdx pos i n < n := by
  unfold reflectIdx intAbs
  split_ifs <;> omega

lemma pixAt_uniform (g : Grid) (v : ℕ)
    (hrect : ∀ row ∈ g, row.length = (g.getD 0 []).length)
    (huni : ∀ row ∈ g, ∀ p ∈ row, p.y = v)
    (y x : ℤ) (hy0 : 0 ≤ y) (hy1 : y < g.length) (hx0 : 0 ≤ x)
    (hx1 : x < (g.getD 0 []).length) : (pixAt g y x).y = v := by
  unfold pixAt
  have hyn : y.toNat < g.length := by omega
  rw [List.getD_eq_getElem _ _ hyn]
  have hrow : g[y.toNat] ∈ g := List.getElem_mem hyn
  have hxn : x.toNat < g[y.toNat].length := by
    rw [hrect _ hrow]
    omega
  rw [List.getD_eq_getElem _ _ hxn]
  exact huni _ hrow _ (List.getElem_mem hxn)

lemma intRange_three (a : ℤ) : intRange a (a + 2) = [a, a + 1, a + 2] := by
  unfold intRange
  have h3 : (a + 2 - a + 1).toNat = 3 := by omega
  rw [h3, show List.range 3 = [0, 1, 2] from rfl]
  norm_num

lemma pane_uniform (g : Grid) (v : ℕ) (y x : ℕ)
    (hh : 2 ≤ g.length) (hw : 2 ≤ (g.getD 0 []).length)
    (hrect : ∀ row ∈ g, row.length = (g.getD 0 []).length)
    (huni : ∀ row ∈ g, ∀ p ∈ row, p.y = v)
    (hy : y < g.length) (hx : x < (g.getD 0 []).length) :
    (getSorroundingPixelMatrix g y x 3).data = List.replicate 9 (v : ℚ) := by
  have hent : ∀ yy xx : ℤ, (y : ℤ) - 1 ≤ yy → yy ≤ (y : ℤ) + 1 → (x : ℤ) - 1 ≤ xx →
      xx ≤ (x : ℤ) + 1 →
      ((pixAt g (reflectIdx y yy g.length) (reflectIdx x xx (g.getD 0 []).length)).y : ℚ)
        = v := by
    intro yy xx h1 h2 h3 h4
    have hb1 := reflectIdx_bounds y yy g.length (by omega) (by exact_mod_cast hy)
      (by exact_mod_cast hh) h1 h2
    have hb2 := reflectIdx_bounds x xx (g.getD 0 []).length (by omega)
      (by exact_mod_cast hx) (by exact_mod_cast hw) h3 h4
    rw [pixAt_uniform g v hrect huni _ _ hb1.1 hb1.2 hb2.1 hb2.2]
  unfold getSorroundingPixelMatrix
  simp only
  rw [show (((3 : ℕ) : ℤ) / 2) = 1 from by decide]
  rw [show (y : ℤ) + 1 = (y : ℤ) - 1 + 2 from by ring, intRange_three]
  rw [show (x : ℤ) + 1 = (x : ℤ) - 1 + 2 from by ring, intRange_three]
  simp only [List.flatMap_cons, List.flatMap_nil, List.map_cons, List.map_nil,
    List.append_nil, List.cons_append, List.nil_append]
  rw [show (List.replicate 9 (v : ℚ)) = [(v:ℚ), v, v, v, v, v, v, v, v] from rfl]
  simp only [List.cons.injEq, and_true]
  refine ⟨?_, ?_, ?_, ?_, ?_, ?_, ?_, ?_, ?_⟩ <;>
    exact hent _ _ (by omega) (by omega) (by omega) (by omega)

lemma convolve_replicate_sobel_X (v : ℚ) :
    convolve ⟨3, 3, List.replicate 9 v⟩ sobel_X = some 0 := by
  unfold convolve sobel_X DenseMat.At SOBEL_X
  rw [if_pos ⟨rfl, rfl⟩]
  rw [show List.range 3 = [0, 1, 2] from rfl]
  simp only [List.map_cons, List.map_nil, List.sum_cons, List.sum_nil]
  norm_num [List.getD]

lemma convolve_replicate_sobel_Y (v : ℚ) :
    convolve ⟨3, 3, List.replicate 9 v⟩ sobel_Y = some 0 := by
  unfold convolve sobel_Y DenseMat.At SOBEL_Y
  rw [if_pos ⟨rfl, rfl⟩]
  rw [show List.range 3 = [0, 1, 2] from rfl]
  simp only [List.map_cons, List.map_nil, List.sum_cons, List.sum_nil]
  norm_num [List.getD]
  ring

/-- C8: on a uniform-intensity grid (of dimensions at least 2x2, so that the
reflected 3x3 window stays inside the grid and the Go code does not fault),
the Sobel magnitude is 0 at every pixel. -/
theorem sobelMag_uniform_zero (g : Grid) (v : ℕ)
    (hh : 2 ≤ g.length) (hw : 2 ≤ (g.getD 0 []).length)
    (hrect : ∀ row ∈ g, row.length = (g.getD 0 []).length)
    (huni : ∀ row ∈ g, ∀ p ∈ row, p.y = v)
    (y x : ℕ) (hy : y < g.length) (hx : x < (g.getD 0 []).length) :
    (pixAt (sobelMag g) y x).y = 0 := by
  have hrowlen : (g.getD y []).length = (g.getD 0 []).length := by
    rw [List.getD_eq_getElem _ _ hy]
    exact hrect _ (List.getElem_mem hy)
  have hpane := pane_uniform g v y x hh hw hrect huni hy hx
  have hResX : sobelResX g y x = 0 := by
    unfold sobelResX
    rw [show getSorroundingPixelMatrix g y x 3 = ⟨3, 3, List.replicate 9 (v : ℚ)⟩ from by
      rw [← hpane]
      exact rfl]
    rw [convolve_replicate_sobel_X]
    rfl
  have hResY : sobelResY g y x = 0 := by
    unfold sobelResY
    rw [show getSorroundingPixelMatrix g y x 3 = ⟨3, 3, List.replicate 9 (v : ℚ)⟩ from by
      rw [← hpane]
      exact rfl]
    rw [convolve_replicate_sobel_Y]
    rfl
  unfold sobelMag
  rw [pixAt_map_range_dep _ _ _ _ _ hy (by rw [hrowlen]; exact hx)]
  rw [hResX, hResY]
  norm_num [u8OfSqrt]
  decide

/-- Witness for C8 on a concrete uniform 2×2 grid of intensity 7. -/
theorem sobelMag_uniform_zero_witness : (pixAt (sobelMag uni2) 0 0).y = 0 :=
  sobelMag_uniform_zero uni2 7 (by decide) (by decide) (by decide) (by decide)
    0 0 (by decide) (by decide)

lemma sqrtIterFuel_eq_iter (fuel n x : ℕ) (h : x ≤ fuel) :
    sqrtIterFuel fuel n x = Nat.sqrt.iter n x := by
  induction fuel generalizing x with
  | zero =>
    have hx : x = 0 := by omega
    subst hx
    unfold Nat.sqrt.iter
    simp [sqrtIterFuel]
  | succ f ih =>
    unfold Nat.sqrt.iter sqrtIterFuel
    simp only []
    by_cases hlt : (x + n / x) / 2 < x
    · rw [if_pos hlt, dif_pos hlt, ih _ (by omega)]
    · rw [if_neg hlt, dif_neg hlt]

lemma natSqrt_eq_sqrt (n : ℕ) : natSqrt n = Nat.sqrt n := by
  unfold natSqrt Nat.sqrt
  by_cases h : n ≤ 1
  · rw [if_pos h, if_pos h]
  · rw [if_neg h, if_neg h, sqrtIterFuel_eq_iter n n (n / 2) (by omega)]

lemma getD_set_cases {β : Type} (l : List β) (i j : ℕ) (a d : β) :
    (l.set i a).getD j d = l.getD j d ∨
    ((l.set i a).getD j d = a ∧ i = j ∧ j < l.length) := by
  by_cases hij : i = j
  · subst hij
    by_cases hlen : i < l.length
    · refine Or.inr ⟨?_, rfl, hlen⟩
      rw [List.getD_eq_getElem?_getD, List.getElem?_set_eq_of_lt a hlen]
      rfl
    · refine Or.inl ?_
      rw [List.set_eq_of_length_le (by omega)]
  · refine Or.inl ?_
    rw [List.getD_eq_getElem?_getD, List.getElem?_set_ne hij, ← List.getD_eq_getElem?_getD]

lemma pixAt_setIntensity (g : Grid) (a b : ℤ) (v : ℕ) (y x : ℕ) :
    pixAt (setIntensity g a b v) y x = pixAt g y x ∨
    pixAt (setIntensity g a b v) y x = ⟨v, (pixAt g y x).a⟩ := by
  unfold setIntensity pixAt
  simp only [Int.toNat_natCast]
  rcases getD_set_cases g b.toNat y
      ((g.getD b.toNat []).set a.toNat ⟨v, ((g.getD b.toNat []).getD a.toNat defaultPixel).a⟩)
      [] with hrow | ⟨hrow, hby, hylen⟩
  · rw [hrow]
    exact Or.inl rfl
  · rw [hrow]
    subst hby
    rcases getD_set_cases (g.getD b.toNat []) a.toNat x
        (⟨v, ((g.getD b.toNat []).getD a.toNat defaultPixel).a⟩ : GrayPixel)
        defaultPixel with hcol | ⟨hcol, hax, hxlen⟩
    · rw [hcol]
      exact Or.inl rfl
    · rw [hcol]
      subst hax
      exact Or.inr rfl

lemma edgeTracking_pointwise (weak : List (ℤ × ℤ)) (g : Grid) (s : List (ℤ × ℤ)) (y x : ℕ) :
    (pixAt (edgeTracking g s weak).1 y x).y = 0 ∨
    pixAt (edgeTracking g s weak).1 y x = pixAt g y x := by
  induction weak generalizing g s with
  | nil => exact Or.inr rfl
  | cons wp rest ih =>
    have hstep : edgeTracking g s (wp :: rest) =
        edgeTracking (setIntensity g wp.1 wp.2 0)
          (if s.inter (getAdjacentPixels g wp.1 wp.2) ≠ [] then s ++ [wp] else s) rest := rfl
    rw [hstep]
    rcases ih (setIntensity g wp.1 wp.2 0)
        (if s.inter (getAdjacentPixels g wp.1 wp.2) ≠ [] then s ++ [wp] else s) with h0 | heq
    · exact Or.inl h0
    · rcases pixAt_setIntensity g wp.1 wp.2 0 y x with h1 | h1
      · exact Or.inr (heq.trans h1)
      · refine Or.inl ?_
        rw [heq, h1]

lemma pixAt_map_range_cases (f : ℕ → ℕ → GrayPixel) (wf : ℕ → ℕ) (h y x : ℕ) :
    pixAt ((List.range h).map (fun yy => (List.range (wf yy)).map (fun xx => f yy xx))) y x
      = f y x ∨
    pixAt ((List.range h).map (fun yy => (List.range (wf yy)).map (fun xx => f yy xx))) y x
      = defaultPixel := by
  by_cases hy : y < h
  · by_cases hx : x < wf y
    · exact Or.inl (pixAt_map_range_dep f wf h y x hy hx)
    · refine Or.inr ?_
      unfold pixAt
      simp only [Int.toNat_natCast]
      rw [getD_map_range _ _ _ _ hy]
      rw [List.getD_eq_default]
      simpa using hx
  · refine Or.inr ?_
    unfold pixAt
    simp only [Int.toNat_natCast]
    have hrow : ((List.range h).map (fun yy => (List.range (wf yy)).map (fun xx => f yy xx))).getD y []
        = [] := List.getD_eq_default _ _ (by simpa using hy)
    rw [hrow]
    rfl

lemma doublethreshold_grid_pointwise (g : Grid) (high low : ℚ) (y x : ℕ) :
    (pixAt (doublethreshold g high low).2.2 y x).y = 0 ∨
    pixAt (doublethreshold g high low).2.2 y x = pixAt g y x := by
  simp only [doublethreshold]
  rcases pixAt_map_range_cases
      (fun yy xx =>
        if high < ((pixAt g yy xx).y : ℚ) then pixAt g yy xx
        else if ((pixAt g yy xx).y : ℚ) < high ∧ low < ((pixAt g yy xx).y : ℚ) then pixAt g yy xx
        else ⟨0, (pixAt g yy xx).a⟩)
      (fun _ => (g.getD 0 []).length) g.length y x with hc | hc
  · rw [hc]
    split_ifs
    · exact Or.inr rfl
    · exact Or.inr rfl
    · exact Or.inl rfl
  · rw [hc]
    exact Or.inl rfl

/-- C1 amended: every pixel of a grid returned by `CannyEdgeDetect` is either
0 or keeps exactly its post-non-maximum-suppression magnitude (the Strong
pixels keep their magnitudes; the code has no pass repainting the Strong Set
to 255, so the output is not restricted to {0, 255}, see the
counterexample). -/
theorem canny_output_zero_or_nms_magnitude (pixels : Grid) (blur : Bool) (minR maxR : ℚ)
    (out nmsg : Grid)
    (h : CannyEdgeDetect pixels blur minR maxR = some out)
    (hn : nonMaximumSuppression (sobel (if blur then gaussianBlur pixels 5 else pixels)).1
            (sobel (if blur then gaussianBlur pixels 5 else pixels)).2 = some nmsg)
    (y x : ℕ) :
    (pixAt out y x).y = 0 ∨ (pixAt out y x).y = (pixAt nmsg y x).y := by
  simp only [CannyEdgeDetect, hn, Option.some.injEq] at h
  subst h
  rcases edgeTracking_pointwise _ _ _ y x with h0 | heq
  · exact Or.inl h0
  · rw [heq]
    rcases doublethreshold_grid_pointwise nmsg _ _ y x with h1 | h1
    · exact Or.inl h1
    · refine Or.inr ?_
      rw [h1]

lemma sobelAngle_zero_of {sx sy : ℚ} (h : sx = 0 ∨ sy = 0) : sobelAngle sx sy = 0 := by
  unfold sobelAngle
  rw [if_pos h, zero_mul]

lemma sobelDir_all_zero (p : Grid)
    (hz : ∀ y : ℕ, y < p.length → ∀ x : ℕ, x < (p.getD y []).length →
      sobelResX p y x = 0 ∨ sobelResY p y x = 0) :
    sobelDir p = p.map (fun row => List.replicate row.length (0 : ℝ)) := by
  unfold sobelDir
  refine List.ext_getElem (by simp) ?_
  intro y hy1 hy2
  simp only [List.length_map, List.length_range] at hy1
  simp only [List.getElem_map, List.getElem_range]
  have hrow : p.getD y [] = p[y] := List.getD_eq_getElem _ _ hy1
  refine List.ext_getElem ?_ ?_
  · simp only [List.length_map, List.length_range, List.length_replicate, hrow]
  intro x hx1 hx2
  simp only [List.length_map, List.length_range] at hx1
  simp only [List.getElem_map, List.getElem_range, List.getElem_replicate]
  exact sobelAngle_zero_of (hz y hy1 x (by omega))

lemma getD_replicate_self {β : Type} (b : β) (n i : ℕ) : (List.replicate n b).getD i b = b := by
  induction n generalizing i with
  | zero => cases i <;> rfl
  | succ k ih =>
    cases i with
    | zero => rfl
    | succ j => exact ih j

lemma dirAt_replicate_zero {α : Type} [LinearOrderedField α] (n m y x : ℕ) :
    ((List.replicate n (List.replicate m (0 : α))).getD y []).getD x 0 = 0 := by
  by_cases hy : y < n
  · have hrow : (List.replicate n (List.replicate m (0 : α))).getD y [] = List.replicate m 0 := by
      rw [List.getD_eq_getElem _ _ (by simpa using hy)]
      simp
    rw [hrow]
    exact getD_replicate_self 0 m x
  · have hrow : (List.replicate n (List.replicate m (0 : α))).getD y [] = [] :=
      List.getD_eq_default _ _ (by simpa using hy)
    rw [hrow]
    rfl

lemma len_getD_replicate {β : Type} (R : List β) (n : ℕ) :
    ((List.replicate n R).getD 0 []).length = if n = 0 then 0 else R.length := by
  cases n <;> rfl

lemma nms_replicate_zero_cast (mags : Grid) (n m : ℕ) :
    nonMaximumSuppression mags (List.replicate n (List.replicate m (0 : ℝ))) =
    nonMaximumSuppression mags (List.replicate n (List.replicate m (0 : ℚ))) := by
  unfold nonMaximumSuppression getPixelInGradientDirection
  simp only [List.length_replicate, dirAt_replicate_zero, directionBucket_zero,
    Option.isSome_some, len_getD_replicate]

lemma canny_centerBright3_eval : CannyEdgeDetect centerBright3 false (1/5) (3/5) = some zero3 := by
  have hmag : sobelMag centerBright3 = zero3 := by decide
  have hdir : sobelDir centerBright3 = List.replicate 3 (List.replicate 3 (0 : ℝ)) := by
    rw [sobelDir_all_zero centerBright3 (by decide)]
    rfl
  have hnms : nonMaximumSuppression (sobelMag centerBright3) (sobelDir centerBright3)
      = some zero3 := by
    rw [hmag, hdir, nms_replicate_zero_cast]
    decide
  simp only [CannyEdgeDetect, sobel]
  rw [show (if false then gaussianBlur centerBright3 5 else centerBright3) = centerBright3 from
    rfl]
  rw [hnms]
  decide

lemma canny_col25_eval : CannyEdgeDetect col25 false (1/4) (1/2) = some col25nms := by
  have hmag : sobelMag col25 = col25nms := by decide
  have hdir : sobelDir col25 = List.replicate 3 (List.replicate 3 (0 : ℝ)) := by
    rw [sobelDir_all_zero col25 (by decide)]
    rfl
  have hnms : nonMaximumSuppression (sobelMag col25) (sobelDir col25) = some col25nms := by
    rw [hmag, hdir, nms_replicate_zero_cast]
    decide
  simp only [CannyEdgeDetect, sobel]
  rw [show (if false then gaussianBlur col25 5 else col25) = col25 from rfl]
  rw [hnms]
  decide

lemma canny_alpha2_eval : CannyEdgeDetect alpha2 false 0 0 = some alpha2out := by
  have hmag : sobelMag alpha2 = alpha2out := by decide
  have hdir : sobelDir alpha2 = List.replicate 2 (List.replicate 2 (0 : ℝ)) := by
    rw [sobelDir_all_zero alpha2 (by decide)]
    rfl
  have hnms : nonMaximumSuppression (sobelMag alpha2) (sobelDir alpha2) = some alpha2out := by
    rw [hmag, hdir, nms_replicate_zero_cast]
    decide
  simp only [CannyEdgeDetect, sobel]
  rw [show (if false then gaussianBlur alpha2 5 else alpha2) = alpha2 from rfl]
  rw [hnms]
  decide

lemma sobelMag_alpha (p : Grid) (y x : ℕ) : (pixAt (sobelMag p) y x).a = 255 := by
  unfold sobelMag
  rcases pixAt_map_range_cases
      (fun yy xx => (⟨u8OfSqrt (sobelResX p yy xx ^ 2 + sobelResY p yy xx ^ 2), 255⟩ : GrayPixel))
      (fun yy => (p.getD yy []).length) p.length y x with hc | hc
  · rw [hc]
  · rw [hc]
    rfl

lemma nms_alpha {α : Type} [LinearOrderedField α] (pixels : Grid)
    (directions : List (List α)) (res : Grid)
    (h : nonMaximumSuppression pixels directions = some res)
    (hin : ∀ y x : ℕ, (pixAt pixels y x).a = 255) (y x : ℕ) : (pixAt res y x).a = 255 := by
  unfold nonMaximumSuppression at h
  by_cases h1 : pixels.length = directions.length ∧
      (pixels.getD 0 []).length = (directions.getD 0 []).length
  swap
  · rw [if_neg h1] at h
    exact absurd h (by simp)
  rw [if_pos h1] at h
  by_cases h2 : ((List.range pixels.length).all fun yy =>
      (List.range (pixels.getD 0 []).length).all fun xx =>
        (directionBucket ((directions.getD yy []).getD xx 0)).isSome) = true
  swap
  · rw [if_neg h2] at h
    exact absurd h (by simp)
  rw [if_pos h2] at h
  have hres := (Option.some.injEq _ _).mp h
  subst hres
  rcases pixAt_map_range_cases
      (fun yy xx =>
        match getPixelInGradientDirection pixels directions (xx : ℤ) (yy : ℤ) with
        | some pq =>
            if (pixAt pixels yy xx).y < pq.1.y ∨ (pixAt pixels yy xx).y < pq.2.y then ⟨0, 255⟩
            else pixAt pixels yy xx
        | none => defaultPixel)
      (fun _ => (pixels.getD 0 []).length) pixels.length y x with hc | hc
  · rw [hc]
    split
    · split_ifs
      · rfl
      · exact hin y x
    · rfl
  · rw [hc]
    rfl

lemma doublethreshold_alpha (g : Grid) (high low : ℚ)
    (hin : ∀ y x : ℕ, (pixAt g y x).a = 255) (y x : ℕ) :
    (pixAt (doublethreshold g high low).2.2 y x).a = 255 := by
  simp only [doublethreshold]
  rcases pixAt_map_range_cases
      (fun yy xx =>
        if high < ((pixAt g yy xx).y : ℚ) then pixAt g yy xx
        else if ((pixAt g yy xx).y : ℚ) < high ∧ low < ((pixAt g yy xx).y : ℚ) then pixAt g yy xx
        else ⟨0, (pixAt g yy xx).a⟩)
      (fun _ => (g.getD 0 []).length) g.length y x with hc | hc
  · rw [hc]
    split_ifs
    · exact hin y x
    · exact hin y x
    · exact hin y x
  · rw [hc]
    rfl

lemma setIntensity_alpha (g : Grid) (a b : ℤ) (v : ℕ)
    (hin : ∀ y x : ℕ, (pixAt g y x).a = 255) (y x : ℕ) :
    (pixAt (setIntensity g a b v) y x).a = 255 := by
  rcases pixAt_setIntensity g a b v y x with h1 | h1
  · rw [h1]
    exact hin y x
  · rw [h1]
    exact hin y x

lemma edgeTracking_alpha (weak : List (ℤ × ℤ)) (g : Grid) (s : List (ℤ × ℤ))
    (hin : ∀ y x : ℕ, (pixAt g y x).a = 255) (y x : ℕ) :
    (pixAt (edgeTracking g s weak).1 y x).a = 255 := by
  induction weak generalizing g s with
  | nil => exact hin y x
  | cons wp rest ih =>
    have hstep : edgeTracking g s (wp :: rest) =
        edgeTracking (setIntensity g wp.1 wp.2 0)
          (if s.inter (getAdjacentPixels g wp.1 wp.2) ≠ [] then s ++ [wp] else s) rest := rfl
    rw [hstep]
    exact ih (setIntensity g wp.1 wp.2 0) _ (setIntensity_alpha g wp.1 wp.2 0 hin)

/-- C10: every pixel of a grid returned by `CannyEdgeDetect` has alpha exactly
255 (the model totalizes out-of-range reads with an alpha-255 default, so the
pointwise statement over all indices covers exactly the grid's pixels): input
alpha values are never propagated, since `sobel` rebuilds every pixel with
alpha 255 and later stages preserve the alpha they were handed. -/
theorem canny_alpha_always_255 (pixels : Grid) (blur : Bool) (minRatio maxRatio : ℚ)
    (out : Grid) (h : CannyEdgeDetect pixels blur minRatio maxRatio = some out) (y x : ℕ) :
    (pixAt out y x).a = 255 := by
  simp only [CannyEdgeDetect] at h
  rcases hnm : nonMaximumSuppression (sobel (if blur then gaussianBlur pixels 5 else pixels)).1
      (sobel (if blur then gaussianBlur pixels 5 else pixels)).2 with _ | nmsg
  · rw [hnm] at h
    exact absurd h (by simp)
  · rw [hnm] at h
    simp only [Option.some.injEq] at h
    subst h
    refine edgeTracking_alpha _ _ _ (fun yy xx => ?_) y x
    refine doublethreshold_alpha _ _ _ (fun yy2 xx2 => ?_) yy xx
    exact nms_alpha _ _ _ hnm (fun y3 x3 => sobelMag_alpha _ y3 x3) yy2 xx2

lemma col25_nms_eval :
    nonMaximumSuppression (sobelMag col25) (sobelDir col25) = some col25nms := by
  have hmag : sobelMag col25 = col25nms := by decide
  have hdir : sobelDir col25 = List.replicate 3 (List.replicate 3 (0 : ℝ)) := by
    rw [sobelDir_all_zero col25 (by decide)]
    rfl
  rw [hmag, hdir, nms_replicate_zero_cast]
  decide

/-- C1 counterexample: on a 3×3 step-edge grid with ratios (1/4, 1/2) and no
blur, `CannyEdgeDetect` returns a grid whose pixel at (x=1, y=0) has intensity
100: a Strong pixel keeps its post-suppression magnitude because the code
never repaints the Strong Set to 255, so the output is not {0, 255}-valued. -/
theorem canny_output_not_binary_cex :
    CannyEdgeDetect col25 false (1 / 4) (1 / 2) = some col25nms ∧
    (pixAt col25nms 0 1).y = 100 ∧
    ¬((pixAt col25nms 0 1).y = 0 ∨ (pixAt col25nms 0 1).y = 255) :=
  ⟨canny_col25_eval, by decide, by decide⟩

/-- Witness for the amended C1 theorem on the step-edge grid. -/
theorem canny_output_zero_or_nms_magnitude_witness :
    (pixAt col25nms 0 1).y = 0 ∨ (pixAt col25nms 0 1).y = (pixAt col25nms 0 1).y :=
  canny_output_zero_or_nms_magnitude col25 false (1 / 4) (1 / 2) col25nms col25nms
    canny_col25_eval col25_nms_eval 0 1

/-- C4 counterexample: on the single-bright-center 3×3 grid with
`minRatio = 1/5`, `maxRatio = 3/5`, blur disabled, the center pixel of the
output is 0, not 255: both Sobel kernels have a zero center coefficient and
the reflected neighborhoods are symmetric, so every gradient magnitude is 0,
the maximum is 0, nothing is classified Strong, and the whole output is 0. -/
theorem canny_center_bright_center_not_255_cex :
    CannyEdgeDetect centerBright3 false (1 / 5) (3 / 5) = some zero3 ∧
    (pixAt zero3 1 1).y ≠ 255 :=
  ⟨canny_centerBright3_eval, by decide⟩

/-- C4 amended: on the single-bright-center 3×3 grid with `minRatio = 1/5`,
`maxRatio = 3/5` and blur disabled, the output is the all-zero grid: the
border pixels are 0 as claimed, but the center is 0 as well (no pixel is
classified Strong, since all Sobel magnitudes vanish on this grid). -/
theorem canny_center_bright_all_zero :
    CannyEdgeDetect centerBright3 false (1 / 5) (3 / 5) = some zero3 ∧
    zero3 = List.replicate 3 (List.replicate 3 (⟨0, 255⟩ : GrayPixel)) ∧
    (pixAt zero3 1 1).y = 0 :=
  ⟨canny_centerBright3_eval, by decide, rfl⟩

/-- Witness for C10 on a 2×2 grid whose input alphas are all 7. -/
theorem canny_alpha_always_255_witness : (pixAt alpha2out 0 0).a = 255 :=
  canny_alpha_always_255 alpha2 false 0 0 alpha2out canny_alpha2_eval 0 0
